import Mathlib

/-!
Verification development for the wayvoice daemon (Rust).

Shallow embedding of:
  - src/text.rs   : `apply_replacements`, the case-insensitive replacement pass,
    modelled at the level of character lists with explicit UTF-8 byte indices
    (Rust `str` operations are byte-indexed, and `replace_range` / slicing
    panic on indices that are out of bounds or not on a character boundary);
  - src/daemon.rs : the session state machine (`State`, `Daemon`, `toggle`,
    `cancel`, `status`, `start_recording`, `stop_and_transcribe`), with the
    external world (process spawn, file metadata, file read, transcription
    call) supplied by an explicit environment, and side effects recorded as an
    event list;
  - src/ipc.rs    : the per-connection command dispatch (`handle_client`),
    and sequences of lock-serialized commands.
-/

namespace Wayvoice

/-! ## Strings as character lists with UTF-8 byte indices -/

/-- UTF-8 byte size of a character, as Rust `char::len_utf8`. -/
def csize (c : Char) : Nat :=
  if c.toNat < 0x80 then 1
  else if c.toNat < 0x800 then 2
  else if c.toNat < 0x10000 then 3
  else 4

/-- Byte length of a string, as Rust `str::len`. -/
def sLen (s : List Char) : Nat := (s.map csize).sum

/-- Coerce a Lean string literal to its character list. -/
def str (s : String) : List Char := s.data

/-- Lowercasing of one character, as Rust `char::to_lowercase` (one character
can lowercase to several).  Modelled exactly on the character subset exercised
in this development: ASCII, U+0130 (İ, which lowercases to i followed by a
combining dot above, changing the byte length), and U+1E9E (ẞ → ß); identity
on all other characters. -/
def lowerChar (c : Char) : List Char :=
  if 'A' ≤ c ∧ c ≤ 'Z' then [Char.ofNat (c.toNat + 32)]
  else if c = Char.ofNat 0x130 then [Char.ofNat 0x69, Char.ofNat 0x307]
  else if c = Char.ofNat 0x1E9E then [Char.ofNat 0xDF]
  else [c]

/-- Lowercasing of a string, as Rust `str::to_lowercase`. -/
def toLowerStr (s : List Char) : List Char := (s.map lowerChar).flatten

/-- First occurrence of `needle` in `hay` as a BYTE index, as Rust
`str::find(&str)`.  A valid-UTF-8 byte match always starts and ends on
character boundaries (UTF-8 is self-synchronizing), so searching at character
granularity while accumulating byte offsets is faithful. -/
def strFind (hay needle : List Char) : Option Nat :=
  if needle.isPrefixOf hay then some 0
  else
    match hay with
    | [] => none
    | c :: rest => (strFind rest needle).map (fun k => k + csize c)

/-- Split a string at BYTE index `n`.  Returns `none` when `n` is out of
bounds or not on a character boundary — the cases where Rust slicing
(`&s[n..]`) panics. -/
def splitAtByte : List Char → Nat → Option (List Char × List Char)
  | s, 0 => some ([], s)
  | [], _ + 1 => none
  | c :: rest, n + 1 =>
    if csize c ≤ n + 1 then
      match splitAtByte rest (n + 1 - csize c) with
      | some (p, q) => some (c :: p, q)
      | none => none
    else none

/-- Rust `String::replace_range (a..b, to)`: remove the byte range `[a, b)`
and insert `to` there.  `none` models the panic when `a` or `b` is out of
bounds or not on a character boundary. -/
def replaceRange (s : List Char) (a b : Nat) (t : List Char) :
    Option (List Char) :=
  match splitAtByte s a with
  | none => none
  | some (p, rest) =>
    match splitAtByte rest (b - a) with
    | none => none
    | some (_, q) => some (p ++ t ++ q)

/-- Outcome of running the replacement code: normal return, a Rust panic
(index out of bounds / not a character boundary), or fuel exhaustion
(modelling non-termination of the Rust loop). -/
inductive RRes where
  | ok (s : List Char)
  | panicked
  | fuelOut
deriving DecidableEq, Repr

/-- The inner `while let Some(pos) = result[i..].to_lowercase().find(...)`
loop of `apply_replacements` (src/text.rs lines 6-11), for one dictionary
entry `(f, t)`.  `i` is a byte index into `result`.  Each iteration slices
`result` at `i`, lowercases the suffix, searches for the lowercased source,
and on a hit replaces the byte range `[i+pos, i+pos+f.len())` of `result` by
`t`, resuming at byte `i+pos+t.len()`.  The Rust loop can diverge (an empty
source always matches at offset 0); `fuel` bounds the number of iterations,
with `fuelOut` reporting that the bound was hit. -/
def replaceLoop (fuel : Nat) (f t : List Char) : List Char → Nat → RRes
  | result, i =>
    match fuel with
    | 0 => RRes.fuelOut
    | fuel' + 1 =>
      match splitAtByte result i with
      | none => RRes.panicked
      | some (_, suf) =>
        match strFind (toLowerStr suf) (toLowerStr f) with
        | none => RRes.ok result
        | some pos =>
          match replaceRange result (i + pos) (i + pos + sLen f) t with
          | none => RRes.panicked
          | some result2 => replaceLoop fuel' f t result2 (i + pos + sLen t)

/-- `apply_replacements` (src/text.rs lines 3-14).  The Rust function iterates
over a `HashMap<String, String>`; the iteration order is unspecified, so the
dictionary is taken here as a list of entries in some traversal order. -/
def apply_replacements (fuel : Nat) (text : List Char)
    (replacements : List (List Char × List Char)) : RRes :=
  match replacements with
  | [] => RRes.ok text
  | (f, t) :: rest =>
    match replaceLoop fuel f t text 0 with
    | RRes.ok r => apply_replacements fuel r rest
    | e => e

example : apply_replacements 9 (str "hello hyperland")
    [(str "hyperland", str "Hyprland")] = RRes.ok (str "hello Hyprland") := by
  decide

example : apply_replacements 9 (str "NEOVIM rocks")
    [(str "neovim", str "Neovim")] = RRes.ok (str "Neovim rocks") := by
  decide

/-! ## The daemon state machine (src/daemon.rs) -/

/-- Session phases, as `enum State` (src/daemon.rs lines 10-15). -/
inductive State where
  | Idle
  | Recording
  | Transcribing
deriving DecidableEq, Repr

/-- `State::as_str` (src/daemon.rs lines 17-25). -/
def State.as_str : State → String
  | State.Idle => "idle"
  | State.Recording => "recording"
  | State.Transcribing => "transcribing"

/-- The part of `Config` (src/config.rs) that the daemon control flow reads:
the replacement dictionary, as a list of entries in some traversal order.
The remaining fields (provider, api keys, prompt, language, model) only
parameterize the opaque transcription HTTP call. -/
structure Config where
  replacements : List (List Char × List Char)
deriving DecidableEq, Repr

/-- Side effects performed by the daemon, in program order.  `notify`
carries the message passed to the notification adapter (the source formats
underlying error values into the message; here a fixed label stands for
each formatted message). -/
inductive Ev where
  | removeFile
  | spawnRecorder
  | killRecorder
  | waitRecorder
  | statMeta
  | readFile
  | transcribe
  | inject (text : List Char)
  | notify (msg : String)
deriving DecidableEq, Repr

/-- `struct Daemon` (src/daemon.rs lines 27-32).  The recorder handle is an
abstract process id; `audio_file` is a fixed path and carries no state. -/
structure Daemon where
  state : State
  config : Config
  recorder : Option Nat
deriving DecidableEq, Repr

/-- Outcomes of the external world for one daemon operation: whether
`pw-record` spawns (and the handle it yields), the result of
`fs::metadata` on the audio file (`some len` or an error), whether
`fs::read` succeeds, the transcription result (`some text` or an error),
and the fuel bound for the replacement pass. -/
structure Env where
  spawnOk : Bool
  childId : Nat
  meta : Option Nat
  readOk : Bool
  transcript : Option (List Char)
  fuel : Nat
deriving DecidableEq, Repr

/-- `Daemon::new` (src/daemon.rs lines 35-43), with the loaded configuration
as a parameter (`load_config` reads the filesystem). -/
def Daemon.new (cfg : Config) : Daemon :=
  { state := State.Idle, config := cfg, recorder := none }

/-- `Daemon::status` (src/daemon.rs lines 45-47). -/
def Daemon.status (d : Daemon) : String := d.state.as_str

/-- `Daemon::start_recording` (src/daemon.rs lines 72-101): remove any stale
audio file, spawn `pw-record`; on success store the handle, enter
`Recording` and notify; on spawn failure leave the daemon unchanged and
notify a failure. -/
def Daemon.start_recording (d : Daemon) (e : Env) : Daemon × List Ev :=
  if e.spawnOk then
    ({ d with recorder := some e.childId, state := State.Recording },
     [Ev.removeFile, Ev.spawnRecorder, Ev.notify "Recording..."])
  else
    (d, [Ev.removeFile, Ev.spawnRecorder, Ev.notify "Failed to start recording"])

/-- `Daemon::stop_and_transcribe` (src/daemon.rs lines 103-166): kill/wait
the recorder if live, stat the audio file (missing file or fewer than 1000
bytes aborts to `Idle` before any transcription), enter `Transcribing`,
read the file (read error aborts to `Idle`), transcribe (error notifies and
falls through), apply the replacement pass, inject if non-empty, and set
the phase back to `Idle` at the end.  `none` models a panic or divergence
inside the replacement pass, in which case the Rust call never returns. -/
def Daemon.stop_and_transcribe (d : Daemon) (e : Env) :
    Option (Daemon × List Ev) :=
  let kill : List Ev :=
    match d.recorder with
    | some _ => [Ev.killRecorder, Ev.waitRecorder]
    | none => []
  let d0 : Daemon := { d with recorder := none }
  match e.meta with
  | none =>
    some ({ d0 with state := State.Idle },
          kill ++ [Ev.statMeta, Ev.notify "Recording failed"])
  | some len =>
    if len < 1000 then
      some ({ d0 with state := State.Idle },
            kill ++ [Ev.statMeta, Ev.notify "No audio recorded"])
    else
      let evs1 := kill ++ [Ev.statMeta, Ev.notify "Transcribing...", Ev.readFile]
      if e.readOk then
        match e.transcript with
        | none =>
          some ({ d0 with state := State.Idle },
                evs1 ++ [Ev.transcribe, Ev.notify "Error: transcription failed"])
        | some text =>
          match apply_replacements e.fuel text d.config.replacements with
          | RRes.ok t2 =>
            if t2.isEmpty then
              some ({ d0 with state := State.Idle }, evs1 ++ [Ev.transcribe])
            else
              some ({ d0 with state := State.Idle },
                    evs1 ++ [Ev.transcribe, Ev.inject t2])
          | _ => none
      else
        some ({ d0 with state := State.Idle },
              evs1 ++ [Ev.notify "Error: read failed"])

/-- `Daemon::toggle` (src/daemon.rs lines 49-61): returns the new daemon,
the response token and the events; `none` when `stop_and_transcribe` does
not return.  Note the `Idle` branch answers `"recording"` unconditionally,
whether or not the spawn succeeded. -/
def Daemon.toggle (d : Daemon) (e : Env) :
    Option (Daemon × String × List Ev) :=
  match d.state with
  | State.Idle =>
    let p := d.start_recording e
    some (p.1, "recording", p.2)
  | State.Recording =>
    match d.stop_and_transcribe e with
    | none => none
    | some (d', evs) => some (d', "transcribing", evs)
  | State.Transcribing => some (d, "busy", [])

/-- `Daemon::cancel` (src/daemon.rs lines 63-70): kill any live recorder
(best effort, error ignored), set the phase to `Idle`, notify, answer
`"cancelled"`. -/
def Daemon.cancel (d : Daemon) : Daemon × String × List Ev :=
  match d.recorder with
  | some _ =>
    ({ d with recorder := none, state := State.Idle }, "cancelled",
     [Ev.killRecorder, Ev.notify "Cancelled"])
  | none =>
    ({ d with state := State.Idle }, "cancelled", [Ev.notify "Cancelled"])

/-! ## The IPC dispatch (src/ipc.rs) -/

/-- The command token read from a client line (src/ipc.rs lines 35-48);
`other` covers every line that is not `toggle`, `cancel` or `status`. -/
inductive Cmd where
  | toggle
  | cancel
  | status
  | other
deriving DecidableEq, Repr

/-- The body of `handle_client` (src/ipc.rs lines 29-54) once a line has
been read: dispatch the command under the daemon lock and produce the
one-line response.  `none` models a dispatch that never returns. -/
def handle (d : Daemon) (c : Cmd) (e : Env) : Option (Daemon × String) :=
  match c with
  | Cmd.toggle =>
    match d.toggle e with
    | none => none
    | some (d', r, _) => some (d', r)
  | Cmd.cancel =>
    let p := d.cancel
    some (p.1, p.2.1)
  | Cmd.status => some (d, d.status)
  | Cmd.other => some (d, "unknown")

/-- A sequence of commands executed one at a time under the daemon's
exclusive lock, as serialized by the `Mutex` in src/ipc.rs; the log pairs
each command with its response. -/
def runSeq : Daemon → List (Cmd × Env) → Option (Daemon × List (Cmd × String))
  | d, [] => some (d, [])
  | d, (c, e) :: rest =>
    match handle d c e with
    | none => none
    | some (d', r) =>
      match runSeq d' rest with
      | none => none
      | some (d'', log) => some (d'', (c, r) :: log)

/-! ## Shared fixtures and helper lemmas -/

/-- An empty replacement dictionary. -/
def C0 : Config := { replacements := [] }

/-- Environment of a successful run: spawn succeeds, a 50000-byte artifact,
read succeeds, transcription yields some text. -/
def Egood : Env :=
  { spawnOk := true, childId := 37, meta := some 50000, readOk := true,
    transcript := some (str "hello world"), fuel := 9 }

/-- Environment where the recorder produced a 200-byte artifact. -/
def EnoAudio : Env :=
  { spawnOk := true, childId := 37, meta := some 200, readOk := true,
    transcript := none, fuel := 9 }

/-- Environment where the recorder process fails to spawn. -/
def Efail : Env :=
  { spawnOk := false, childId := 0, meta := none, readOk := false,
    transcript := none, fuel := 9 }

/-- A daemon mid-recording, with a live recorder handle. -/
def Drec : Daemon :=
  { state := State.Recording, config := C0, recorder := some 37 }

/-- Every normal return of the pipeline ends with phase `Idle`, no recorder
handle, and the configuration unchanged. -/
theorem stop_and_transcribe_ends_idle (d : Daemon) (e : Env)
    (p : Daemon × List Ev) (h : d.stop_and_transcribe e = some p) :
    p.1.state = State.Idle ∧ p.1.recorder = none ∧ p.1.config = d.config := by
  simp only [Daemon.stop_and_transcribe] at h
  repeat' split at h
  all_goals cases h
  all_goals exact ⟨rfl, rfl, rfl⟩

/-! ## C1: toggle in Idle when the recorder fails to spawn -/

/-- C1 counterexample.  The claim says the response is a non-recording
token; in the code the `Idle` arm of `toggle` answers `"recording"`
unconditionally (src/daemon.rs lines 51-54), even when the spawn failed:
from the initial state with a failing spawn, the daemon stays `Idle`, the
failure notification is emitted, and the response is exactly `"recording"`. -/
theorem toggle_spawn_fail_counterexample :
    (Daemon.new C0).state = State.Idle ∧ Efail.spawnOk = false ∧
    (Daemon.new C0).toggle Efail =
      some (Daemon.new C0, "recording",
        [Ev.removeFile, Ev.spawnRecorder, Ev.notify "Failed to start recording"]) := by
  decide

/-- C1 (amended): for every toggle received while the phase is `Idle` with a
failing spawn, the session is left exactly as it was (in particular the
phase stays `Idle`), the failure notification is emitted, and the response
is still `"recording"` (not an error-flavored token). -/
theorem toggle_spawn_fail_spec (d : Daemon) (e : Env)
    (hd : d.state = State.Idle) (he : e.spawnOk = false) :
    d.toggle e =
      some (d, "recording",
        [Ev.removeFile, Ev.spawnRecorder, Ev.notify "Failed to start recording"]) := by
  simp [Daemon.toggle, Daemon.start_recording, hd, he]

/-- C1 witness: the amended statement at the initial daemon and `Efail`. -/
theorem toggle_spawn_fail_spec_witness :
    (Daemon.new C0).toggle Efail =
      some (Daemon.new C0, "recording",
        [Ev.removeFile, Ev.spawnRecorder, Ev.notify "Failed to start recording"]) :=
  toggle_spawn_fail_spec (Daemon.new C0) Efail (by decide) (by decide)

/-! ## C2: toggle in Recording always ends Idle and answers "transcribing" -/

/-- C2: every toggle received while the phase is `Recording` that completes
answers `"transcribing"` and leaves the phase `Idle` (and the recorder
handle dropped), on every exit path of the pipeline: success, no-audio
skip, missing artifact, read failure, or transcription failure. -/
theorem toggle_from_recording_ends_idle (d : Daemon) (e : Env)
    (d' : Daemon) (r : String) (evs : List Ev)
    (hd : d.state = State.Recording)
    (h : d.toggle e = some (d', r, evs)) :
    r = "transcribing" ∧ d'.state = State.Idle ∧ d'.recorder = none := by
  simp only [Daemon.toggle, hd] at h
  cases hs : d.stop_and_transcribe e with
  | none => rw [hs] at h; cases h
  | some p =>
    rw [hs] at h
    cases h
    rcases stop_and_transcribe_ends_idle d e p hs with ⟨h1, h2, _⟩
    exact ⟨rfl, h1, h2⟩

/-- C2 witness: from a concrete `Recording` daemon through the no-audio
path. -/
theorem toggle_from_recording_ends_idle_witness :
    ("transcribing" : String) = "transcribing" ∧
    (Daemon.new C0).state = State.Idle ∧ (none : Option Nat) = none := by
  have h := toggle_from_recording_ends_idle Drec EnoAudio
    { state := State.Idle, config := C0, recorder := none } "transcribing"
    [Ev.killRecorder, Ev.waitRecorder, Ev.statMeta, Ev.notify "No audio recorded"]
    (by decide) (by decide)
  exact ⟨h.1, h.2.1, h.2.2⟩

/-! ## C5: cancel from any phase -/

/-- C5: for every daemon state, `cancel` sets the phase to `Idle`, drops the
recorder handle, answers `"cancelled"`, emits the "Cancelled" notification,
and kills the recorder exactly when one was live. -/
theorem cancel_spec (d : Daemon) :
    d.cancel.1.state = State.Idle ∧
    d.cancel.1.recorder = none ∧
    d.cancel.2.1 = "cancelled" ∧
    Ev.notify "Cancelled" ∈ d.cancel.2.2 ∧
    (d.recorder.isSome = true → Ev.killRecorder ∈ d.cancel.2.2) ∧
    (d.recorder = none → Ev.killRecorder ∉ d.cancel.2.2) := by
  cases hr : d.recorder <;> simp [Daemon.cancel, hr]

/-- C5 witness: `cancel` on a concrete recording daemon. -/
theorem cancel_spec_witness :
    Drec.cancel.1.state = State.Idle ∧
    Drec.cancel.2.1 = "cancelled" ∧
    Ev.killRecorder ∈ Drec.cancel.2.2 := by
  have h := cancel_spec Drec
  exact ⟨h.1, h.2.2.1, h.2.2.2.2.1 (by decide)⟩

/-! ## C6: undersized or missing artifact never reaches the transcriber -/

/-- C6: a toggle received while `Recording`, when the artifact is missing or
smaller than the 1000-byte threshold, completes with phase `Idle`, emits the
user-visible notification, and never calls the transcription service. -/
theorem no_audio_skips_transcription (d : Daemon) (e : Env)
    (hd : d.state = State.Recording)
    (hm : e.meta = none ∨ ∃ len, e.meta = some len ∧ len < 1000) :
    ∃ d' evs, d.toggle e = some (d', "transcribing", evs) ∧
      d'.state = State.Idle ∧
      Ev.transcribe ∉ evs ∧
      (Ev.notify "No audio recorded" ∈ evs ∨ Ev.notify "Recording failed" ∈ evs) := by
  rcases hm with hm | ⟨len, hm, hlen⟩
  · cases hr : d.recorder <;>
      simp only [Daemon.toggle, Daemon.stop_and_transcribe, hd, hm, hr] <;>
      exact ⟨_, _, rfl, rfl, by decide, by decide⟩
  · cases hr : d.recorder <;>
      simp only [Daemon.toggle, Daemon.stop_and_transcribe, hd, hm, hr,
        if_pos hlen] <;>
      exact ⟨_, _, rfl, rfl, by decide, by decide⟩

/-! ## C3: back-to-back toggles across a transcription -/

/-- C3 counterexample.  The two toggles are serialized by the daemon lock,
so the second runs only after the first has completed the whole pipeline —
at which point the phase is `Idle` again: the second toggle is answered
`"recording"` (and starts a new recording), never `"busy"`, and it does
change the state. -/
theorem second_toggle_not_busy_counterexample :
    (Drec.toggle EnoAudio =
      some ({ state := State.Idle, config := C0, recorder := none },
        "transcribing",
        [Ev.killRecorder, Ev.waitRecorder, Ev.statMeta,
         Ev.notify "No audio recorded"])) ∧
    (({ state := State.Idle, config := C0, recorder := none } : Daemon).toggle
        Egood =
      some ({ state := State.Recording, config := C0, recorder := some 37 },
        "recording",
        [Ev.removeFile, Ev.spawnRecorder, Ev.notify "Recording..."])) ∧
    ("recording" : String) ≠ "busy" ∧
    State.Recording ≠ State.Idle := by
  decide

/-- C3 (amended): when two toggles are issued back-to-back while the first is
mid-transcription, the second is serialized after the first completes; it
then observes `Idle` and (when the spawn succeeds) is answered `"recording"`
— not `"busy"` — and moves the session back into `Recording`. -/
theorem second_toggle_gets_recording (d d1 d2 : Daemon) (e1 e2 : Env)
    (r1 r2 : String) (evs1 evs2 : List Ev)
    (hd : d.state = State.Recording)
    (h1 : d.toggle e1 = some (d1, r1, evs1))
    (hspawn : e2.spawnOk = true)
    (h2 : d1.toggle e2 = some (d2, r2, evs2)) :
    r2 = "recording" ∧ d2.state = State.Recording ∧ r2 ≠ "busy" := by
  simp only [Daemon.toggle, hd] at h1
  cases hs : d.stop_and_transcribe e1 with
  | none => rw [hs] at h1; cases h1
  | some p =>
    rw [hs] at h1
    cases h1
    obtain ⟨hidle, -, -⟩ := stop_and_transcribe_ends_idle d e1 p hs
    simp only [Daemon.toggle, Daemon.start_recording, hidle, hspawn,
      if_true] at h2
    cases h2
    exact ⟨rfl, rfl, by decide⟩

/-- C3 witness: the concrete scenario of the counterexample, through the
amended theorem. -/
theorem second_toggle_gets_recording_witness :
    ("recording" : String) = "recording" ∧
    ({ state := State.Recording, config := C0, recorder := some 37 } :
      Daemon).state = State.Recording ∧
    ("recording" : String) ≠ "busy" :=
  second_toggle_gets_recording Drec
    { state := State.Idle, config := C0, recorder := none }
    { state := State.Recording, config := C0, recorder := some 37 }
    EnoAudio Egood "transcribing" "recording"
    [Ev.killRecorder, Ev.waitRecorder, Ev.statMeta,
     Ev.notify "No audio recorded"]
    [Ev.removeFile, Ev.spawnRecorder, Ev.notify "Recording..."]
    (by decide) (by decide) (by decide) (by decide)

/-! ## C4: the recorder-handle/phase invariant -/

/-- The invariant of spec section 3: the recorder handle is live exactly in
phase `Recording`. -/
def Inv (d : Daemon) : Prop :=
  d.recorder.isSome = true ↔ d.state = State.Recording

/-- C4: the invariant holds in the initial state and is preserved by every
complete operation dispatched under the lock (toggle, cancel, status, and
unknown commands alike). -/
theorem recorder_iff_recording :
    (∀ cfg, Inv (Daemon.new cfg)) ∧
    (∀ d c e d' r, Inv d → handle d c e = some (d', r) → Inv d') := by
  constructor
  · intro cfg
    simp [Inv, Daemon.new]
  · intro d c e d' r hinv h
    cases c with
    | toggle =>
      simp only [handle] at h
      cases hst : d.state with
      | Idle =>
        simp only [Daemon.toggle, hst, Daemon.start_recording] at h
        by_cases hs : e.spawnOk = true
        · simp only [hs, if_true] at h
          cases h
          simp [Inv]
        · simp only [Bool.not_eq_true] at hs
          simp only [hs, Bool.false_eq_true, if_false] at h
          cases h
          exact hinv
      | Recording =>
        simp only [Daemon.toggle, hst] at h
        cases hp : d.stop_and_transcribe e with
        | none => rw [hp] at h; cases h
        | some p =>
          rw [hp] at h
          cases h
          obtain ⟨h1, h2, -⟩ := stop_and_transcribe_ends_idle d e p hp
          simp [Inv, h1, h2]
      | Transcribing =>
        simp only [Daemon.toggle, hst] at h
        cases h
        exact hinv
    | cancel =>
      simp only [handle, Daemon.cancel] at h
      cases hr : d.recorder <;> rw [hr] at h <;> cases h <;> simp [Inv]
    | status =>
      simp only [handle] at h
      cases h
      exact hinv
    | other =>
      simp only [handle] at h
      cases h
      exact hinv

/-- C4 witness: the invariant at the initial daemon, and its preservation
across a concrete completed toggle. -/
theorem recorder_iff_recording_witness :
    Inv (Daemon.new C0) ∧ Inv Drec :=
  ⟨recorder_iff_recording.1 C0,
   recorder_iff_recording.2 (Daemon.new C0) Cmd.toggle Egood Drec "recording"
     (recorder_iff_recording.1 C0) (by decide)⟩

/-- C6 witness: the concrete 200-byte artifact scenario. -/
theorem no_audio_skips_transcription_witness :
    ∃ d' evs,
      Drec.toggle EnoAudio = some (d', "transcribing", evs) ∧
      d'.state = State.Idle ∧
      Ev.transcribe ∉ evs ∧
      (Ev.notify "No audio recorded" ∈ evs ∨ Ev.notify "Recording failed" ∈ evs) :=
  no_audio_skips_transcription Drec EnoAudio
    (by decide) (Or.inr ⟨200, by decide, by decide⟩)

/-! ## C8: Transcribing is never observable between commands -/

/-- One dispatched command preserves "phase is not `Transcribing`", and under
that invariant `status` never answers `"transcribing"` and `toggle` never
answers `"busy"`. -/
theorem handle_step (d : Daemon) (c : Cmd) (e : Env) (d' : Daemon) (r : String)
    (hd : d.state ≠ State.Transcribing) (h : handle d c e = some (d', r)) :
    d'.state ≠ State.Transcribing ∧
    (c = Cmd.status → r ≠ "transcribing") ∧
    (c = Cmd.toggle → r ≠ "busy") := by
  cases c with
  | toggle =>
    simp only [handle] at h
    cases hst : d.state with
    | Idle =>
      simp only [Daemon.toggle, hst, Daemon.start_recording] at h
      by_cases hs : e.spawnOk = true
      · simp only [hs, if_true] at h
        cases h
        exact ⟨by simp, by decide⟩
      · simp only [Bool.not_eq_true] at hs
        simp only [hs, Bool.false_eq_true, if_false] at h
        cases h
        exact ⟨fun hh => hd hh, by decide⟩
    | Recording =>
      simp only [Daemon.toggle, hst] at h
      cases hp : d.stop_and_transcribe e with
      | none => rw [hp] at h; cases h
      | some p =>
        rw [hp] at h
        cases h
        obtain ⟨h1, -, -⟩ := stop_and_transcribe_ends_idle d e p hp
        exact ⟨by rw [h1]; simp, by decide⟩
    | Transcribing => exact absurd hst hd
  | cancel =>
    cases hr : d.recorder <;>
      simp only [handle, Daemon.cancel, hr] at h <;> cases h <;>
      exact ⟨by simp, by decide⟩
  | status =>
    simp only [handle, Daemon.status] at h
    cases h
    refine ⟨hd, fun _ => ?_, fun hh => absurd hh (by decide)⟩
    cases hst : d.state with
    | Idle => simp [State.as_str, hst]
    | Recording => simp [State.as_str, hst]
    | Transcribing => exact absurd hst hd
  | other =>
    simp only [handle] at h
    cases h
    exact ⟨hd, by decide⟩

/-- Along any lock-serialized command sequence from a non-`Transcribing`
state, the final phase is not `Transcribing`, no `status` answers
`"transcribing"`, and no `toggle` answers `"busy"`. -/
theorem runSeq_inv (cmds : List (Cmd × Env)) :
    ∀ (d d' : Daemon) (log : List (Cmd × String)),
      d.state ≠ State.Transcribing → runSeq d cmds = some (d', log) →
      d'.state ≠ State.Transcribing ∧
      ∀ p ∈ log, (p.1 = Cmd.status → p.2 ≠ "transcribing") ∧
                 (p.1 = Cmd.toggle → p.2 ≠ "busy") := by
  induction cmds with
  | nil =>
    intro d d' log hd h
    cases h
    exact ⟨hd, by simp⟩
  | cons ce rest ih =>
    intro d d' log hd h
    obtain ⟨c, e⟩ := ce
    simp only [runSeq] at h
    cases hh : handle d c e with
    | none => rw [hh] at h; cases h
    | some p =>
      rw [hh] at h
      obtain ⟨pd, pr⟩ := p
      dsimp only at h
      cases hq : runSeq pd rest with
      | none => rw [hq] at h; cases h
      | some q =>
        rw [hq] at h
        obtain ⟨qd, qlog⟩ := q
        cases h
        obtain ⟨h1, h2, h3⟩ := handle_step d c e pd pr hd hh
        obtain ⟨g1, g2⟩ := ih pd _ _ h1 hq
        refine ⟨g1, fun p hp => ?_⟩
        rcases List.mem_cons.mp hp with hp | hp
        · subst hp
          exact ⟨h2, h3⟩
        · exact g2 p hp

/-- C8: starting from the initial `Idle` state, along every completed
lock-serialized command sequence the observed phase is never `Transcribing`:
the final state is not `Transcribing`, `status` never answers
`"transcribing"`, and `toggle` never answers `"busy"`. -/
theorem transcribing_never_observed (cfg : Config) (cmds : List (Cmd × Env))
    (d' : Daemon) (log : List (Cmd × String))
    (h : runSeq (Daemon.new cfg) cmds = some (d', log)) :
    d'.state ≠ State.Transcribing ∧
    ∀ p ∈ log, (p.1 = Cmd.status → p.2 ≠ "transcribing") ∧
               (p.1 = Cmd.toggle → p.2 ≠ "busy") :=
  runSeq_inv cmds (Daemon.new cfg) d' log (by simp [Daemon.new]) h

/-- A six-command scenario: record, poll, stop (no audio), poll, cancel,
unknown. -/
def Cmds0 : List (Cmd × Env) :=
  [(Cmd.toggle, Egood), (Cmd.status, Egood), (Cmd.toggle, EnoAudio),
   (Cmd.status, Egood), (Cmd.cancel, Egood), (Cmd.other, Egood)]

/-- C8 witness: the six-command scenario, fully evaluated. -/
theorem transcribing_never_observed_witness :
    (Daemon.new C0).state ≠ State.Transcribing ∧
    ∀ p ∈ [(Cmd.toggle, "recording"), (Cmd.status, "recording"),
           (Cmd.toggle, "transcribing"), (Cmd.status, "idle"),
           (Cmd.cancel, "cancelled"), (Cmd.other, "unknown")],
      (p.1 = Cmd.status → p.2 ≠ ("transcribing" : String)) ∧
      (p.1 = Cmd.toggle → p.2 ≠ ("busy" : String)) :=
  transcribing_never_observed C0 Cmds0 (Daemon.new C0)
    [(Cmd.toggle, "recording"), (Cmd.status, "recording"),
     (Cmd.toggle, "transcribing"), (Cmd.status, "idle"),
     (Cmd.cancel, "cancelled"), (Cmd.other, "unknown")]
    (by decide)

/-! ## C7: idempotence of the replacement pass -/

/-- Splitting at byte 0 always succeeds. -/
theorem splitAtByte_zero (s : List Char) : splitAtByte s 0 = some ([], s) := by
  cases s <;> rfl

/-- If no (lowercased) source occurs in the lowercased text, one entry's
replacement loop returns the text unchanged in one step. -/
theorem replaceLoop_no_hit (fuel : Nat) (f t r : List Char)
    (hf : strFind (toLowerStr r) (toLowerStr f) = none) :
    replaceLoop (fuel + 1) f t r 0 = RRes.ok r := by
  simp only [replaceLoop, splitAtByte_zero, hf]

/-- A text in which no (lowercased) source occurs is a fixed point of the
whole replacement pass. -/
theorem apply_replacements_fixpoint (fuel : Nat) (r : List Char)
    (d : List (List Char × List Char))
    (h : ∀ p ∈ d, strFind (toLowerStr r) (toLowerStr p.1) = none) :
    apply_replacements (fuel + 1) r d = RRes.ok r := by
  induction d with
  | nil => rfl
  | cons p rest ih =>
    obtain ⟨f, t⟩ := p
    have hf := h (f, t) (List.mem_cons_self _ _)
    simp only [apply_replacements, replaceLoop_no_hit fuel f t r hf]
    exact ih fun q hq => h q (List.mem_cons_of_mem _ hq)

/-- C7 counterexample.  The dictionary `{"ab" ↦ "ca"}` and text `"abb"`:
targets and sources are disjoint under every reading (the target is not a
source, no source occurs in the target, no target occurs in a source), yet
one pass gives `"cab"` and a second pass gives `"cca"`.  The first pass
misses the occurrence of `"ab"` formed at the junction of the inserted text
and the following text, because the loop resumes searching after the
inserted replacement. -/
theorem apply_replacements_not_idempotent :
    apply_replacements 9 (str "abb") [(str "ab", str "ca")] =
      RRes.ok (str "cab") ∧
    apply_replacements 9 (str "cab") [(str "ab", str "ca")] =
      RRes.ok (str "cca") ∧
    str "cab" ≠ str "cca" ∧
    strFind (toLowerStr (str "ca")) (toLowerStr (str "ab")) = none ∧
    strFind (toLowerStr (str "ab")) (toLowerStr (str "ca")) = none ∧
    str "ab" ≠ str "ca" := by
  decide

/-- C7 (amended): the replacement pass is idempotent under the stronger
disjointness condition that no (lowercased) source occurs in the
once-replaced text: if one pass on `text` returns `r` and no source occurs
in `r`, a second pass returns `r` unchanged, so twice equals once. -/
theorem apply_replacements_idempotent (fuel fuel' : Nat) (text r : List Char)
    (d : List (List Char × List Char))
    (h1 : apply_replacements fuel text d = RRes.ok r)
    (h2 : ∀ p ∈ d, strFind (toLowerStr r) (toLowerStr p.1) = none) :
    apply_replacements (fuel' + 1) r d = RRes.ok r :=
  apply_replacements_fixpoint fuel' r d h2

/-- C7 witness: `"ab"` with `{"a" ↦ "z"}` gives `"zb"` in one pass, and the
second pass leaves `"zb"` unchanged. -/
theorem apply_replacements_idempotent_witness :
    apply_replacements 9 (str "zb") [(str "a", str "z")] =
      RRes.ok (str "zb") :=
  apply_replacements_idempotent 9 8 (str "ab") (str "zb")
    [(str "a", str "z")] (by decide) (by decide)

/-! ## C9: the replacement pass can panic on non-ASCII text -/

/-- C9 counterexample.  On the text `"İx"` with dictionary `{"x" ↦ "y"}`,
lowercasing turns the 2-byte `İ` (U+0130) into the 3-byte sequence
`i` + U+0307, so the match position 3 found in the lowercased copy is past
the end of the 3-byte original: `replace_range(3..4, ...)` panics in Rust,
and the model reports the panic. -/
theorem apply_replacements_panics :
    apply_replacements 5 [Char.ofNat 0x130, 'x'] [([('x' : Char)], ['y'])] =
      RRes.panicked := by
  decide

/-- ASCII strings: every character below U+0080. -/
def asciiStr (s : List Char) : Prop := ∀ c ∈ s, c.toNat < 128

instance (s : List Char) : Decidable (asciiStr s) :=
  List.decidableBAll _ s

/-- ASCII characters occupy one byte. -/
theorem csize_ascii (c : Char) (h : c.toNat < 128) : csize c = 1 := by
  simp [csize, h]

/-- On ASCII strings, byte length equals character count. -/
theorem sLen_ascii (s : List Char) (h : asciiStr s) : sLen s = s.length := by
  induction s with
  | nil => rfl
  | cons c cs ih =>
    have hc := csize_ascii c (h c (List.mem_cons_self c cs))
    have hcs := ih fun x hx => h x (List.mem_cons_of_mem _ hx)
    simp only [sLen, List.map_cons, List.sum_cons, hc, List.length_cons] at *
    omega

/-- Packing a valid scalar value and unpacking it is the identity. -/
theorem toNat_ofNat_valid (n : Nat) (h : n.isValidChar) :
    (Char.ofNat n).toNat = n := by
  rw [Char.ofNat, dif_pos h]
  simp [Char.ofNatAux, Char.toNat, UInt32.toNat, BitVec.toNat_ofNatLt]

/-- Lowercasing an ASCII character yields a single ASCII character. -/
theorem lowerChar_ascii (c : Char) (h : c.toNat < 128) :
    ∃ c', lowerChar c = [c'] ∧ c'.toNat < 128 := by
  unfold lowerChar
  by_cases hAZ : 'A' ≤ c ∧ c ≤ 'Z'
  · refine ⟨Char.ofNat (c.toNat + 32), by rw [if_pos hAZ], ?_⟩
    have h90 : c.toNat ≤ 90 := by
      have := hAZ.2
      simp only [Char.le_def] at this
      exact this
    rw [toNat_ofNat_valid _ (Or.inl (by omega))]
    omega
  · have h1 : c ≠ Char.ofNat 0x130 := by
      intro he
      rw [he, toNat_ofNat_valid _ (Or.inl (by omega))] at h
      omega
    have h2 : c ≠ Char.ofNat 0x1E9E := by
      intro he
      rw [he, toNat_ofNat_valid _ (Or.inl (by omega))] at h
      omega
    rw [if_neg hAZ, if_neg h1, if_neg h2]
    exact ⟨c, rfl, h⟩

/-- Lowercasing unfolds one character at a time. -/
theorem toLowerStr_cons (c : Char) (cs : List Char) :
    toLowerStr (c :: cs) = lowerChar c ++ toLowerStr cs := by
  simp [toLowerStr]

/-- Lowercasing an ASCII string is ASCII and length-preserving. -/
theorem toLowerStr_ascii (s : List Char) (h : asciiStr s) :
    asciiStr (toLowerStr s) ∧ (toLowerStr s).length = s.length := by
  induction s with
  | nil => exact ⟨fun c hc => absurd hc (List.not_mem_nil c), rfl⟩
  | cons c cs ih =>
    obtain ⟨hh, hl⟩ := ih fun x hx => h x (List.mem_cons_of_mem _ hx)
    obtain ⟨c', hc', hc128⟩ := lowerChar_ascii c (h c (List.mem_cons_self c cs))
    constructor
    · intro x hx
      rw [toLowerStr_cons, hc'] at hx
      rcases List.mem_append.mp hx with hx | hx
      · rw [List.mem_singleton.mp hx]
        exact hc128
      · exact hh x hx
    · rw [toLowerStr_cons, hc']
      simp only [List.length_append, List.length_cons, List.length_nil, hl]
      omega

/-- On ASCII strings, splitting at any byte index within bounds succeeds and
is the take/drop split. -/
theorem splitAtByte_ascii (s : List Char) (n : Nat) (h : asciiStr s)
    (hn : n ≤ s.length) : splitAtByte s n = some (s.take n, s.drop n) := by
  induction s generalizing n with
  | nil =>
    cases n with
    | zero => rfl
    | succ m => simp at hn
  | cons c cs ih =>
    cases n with
    | zero => rfl
    | succ m =>
      have hc : csize c = 1 := csize_ascii c (h c (List.mem_cons_self c cs))
      have hcs : asciiStr cs := fun x hx => h x (List.mem_cons_of_mem _ hx)
      have hm : m ≤ cs.length := by simpa using hn
      simp only [splitAtByte, hc, if_pos (by omega : 1 ≤ m + 1),
        Nat.add_sub_cancel, ih m hcs hm]
      rfl

/-- A successful find on an ASCII haystack is within bounds: the match fits
between the byte position and the end. -/
theorem strFind_le (needle : List Char) :
    ∀ (hay : List Char) (pos : Nat), asciiStr hay →
      strFind hay needle = some pos → pos + needle.length ≤ hay.length := by
  intro hay
  induction hay with
  | nil =>
    intro pos _ h
    simp only [strFind] at h
    split at h
    · cases h
      rename_i hpre
      have := List.IsPrefix.length_le (List.isPrefixOf_iff_prefix.mp hpre)
      simpa using this
    · cases h
  | cons c rest ih =>
    intro pos hhay h
    simp only [strFind] at h
    split at h
    · cases h
      rename_i hpre
      have := List.IsPrefix.length_le (List.isPrefixOf_iff_prefix.mp hpre)
      simpa using this
    · have hc : csize c = 1 := csize_ascii c (hhay c (List.mem_cons_self c rest))
      cases hr : strFind rest needle with
      | none => rw [hr] at h; cases h
      | some k =>
        rw [hr] at h
        simp only [Option.map_some, hc] at h
        cases h
        have := ih k (fun x hx => hhay x (List.mem_cons_of_mem _ hx)) hr
        simp only [List.length_cons]
        omega

/-- On ASCII strings, `replace_range` with a within-bounds range succeeds. -/
theorem replaceRange_ascii (s t : List Char) (a b : Nat) (hs : asciiStr s)
    (hab : a ≤ b) (hb : b ≤ s.length) :
    replaceRange s a b t =
      some (s.take a ++ t ++ (s.drop a).drop (b - a)) := by
  have hdrop : asciiStr (s.drop a) := fun x hx => hs x (List.drop_subset a s hx)
  have hlen : b - a ≤ (s.drop a).length := by
    rw [List.length_drop]
    omega
  unfold replaceRange
  rw [splitAtByte_ascii s a hs (le_trans hab hb)]
  dsimp only
  rw [splitAtByte_ascii (s.drop a) (b - a) hdrop hlen]

/-- The replacement loop on ASCII inputs never panics, and every normal
return is ASCII. -/
theorem replaceLoop_ascii (f t : List Char) (hf : asciiStr f)
    (ht : asciiStr t) :
    ∀ (fuel : Nat) (res : List Char) (i : Nat), asciiStr res →
      i ≤ res.length →
      replaceLoop fuel f t res i ≠ RRes.panicked ∧
      (∀ r, replaceLoop fuel f t res i = RRes.ok r → asciiStr r) := by
  intro fuel
  induction fuel with
  | zero =>
    intro res i _ _
    constructor
    · simp [replaceLoop]
    · intro r h
      simp [replaceLoop] at h
  | succ fuel ih =>
    intro res i hres hi
    have hsplit : splitAtByte res i = some (res.take i, res.drop i) :=
      splitAtByte_ascii res i hres hi
    cases hfind : strFind (toLowerStr (res.drop i)) (toLowerStr f) with
    | none =>
      constructor
      · simp [replaceLoop, hsplit, hfind]
      · intro r h
        simp only [replaceLoop, hsplit, hfind] at h
        cases h
        exact hres
    | some pos =>
      have hsuf : asciiStr (res.drop i) :=
        fun x hx => hres x (List.drop_subset i res hx)
      obtain ⟨hlowA, hlowL⟩ := toLowerStr_ascii (res.drop i) hsuf
      obtain ⟨-, hflowL⟩ := toLowerStr_ascii f hf
      have hb := strFind_le (toLowerStr f) (toLowerStr (res.drop i)) pos
        hlowA hfind
      rw [hlowL, hflowL, List.length_drop] at hb
      have hsf : sLen f = f.length := sLen_ascii f hf
      have hst : sLen t = t.length := sLen_ascii t ht
      have hrr : replaceRange res (i + pos) (i + pos + sLen f) t =
          some (res.take (i + pos) ++ t ++
            (res.drop (i + pos)).drop (i + pos + sLen f - (i + pos))) := by
        exact replaceRange_ascii res t _ _ hres (by omega) (by omega)
      have hres2 : asciiStr (res.take (i + pos) ++ t ++
          (res.drop (i + pos)).drop (i + pos + sLen f - (i + pos))) := by
        intro x hx
        rcases List.mem_append.mp hx with hx | hx
        · rcases List.mem_append.mp hx with hx | hx
          · exact hres x (List.take_subset _ res hx)
          · exact ht x hx
        · exact hres x (List.drop_subset _ res (List.drop_subset _ _ hx))
      have hi2 : i + pos + sLen t ≤ (res.take (i + pos) ++ t ++
          (res.drop (i + pos)).drop (i + pos + sLen f - (i + pos))).length := by
        simp only [List.length_append, List.length_take, List.length_drop, hst]
        have : min (i + pos) res.length = i + pos := by omega
        omega
      obtain ⟨g1, g2⟩ := ih _ _ hres2 hi2
      constructor
      · simp only [replaceLoop, hsplit, hfind, hrr]
        exact g1
      · intro r h
        simp only [replaceLoop, hsplit, hfind, hrr] at h
        exact g2 r h

/-- The replacement pass on ASCII text with an ASCII dictionary never
panics: every byte position it computes is a valid character boundary. -/
theorem apply_replacements_ascii_aux (d : List (List Char × List Char)) :
    ∀ (fuel : Nat) (text : List Char), asciiStr text →
      (∀ p ∈ d, asciiStr p.1 ∧ asciiStr p.2) →
      apply_replacements fuel text d ≠ RRes.panicked := by
  induction d with
  | nil =>
    intro fuel text _ _
    simp [apply_replacements]
  | cons p rest ih =>
    intro fuel text htext hd
    obtain ⟨f, t⟩ := p
    obtain ⟨hf, ht⟩ := hd (f, t) (List.mem_cons_self _ _)
    obtain ⟨g1, g2⟩ := replaceLoop_ascii f t hf ht fuel text 0 htext
      (Nat.zero_le _)
    simp only [apply_replacements]
    cases hres : replaceLoop fuel f t text 0 with
    | ok r =>
      exact ih fuel r (g2 r hres) fun q hq => hd q (List.mem_cons_of_mem _ hq)
    | panicked => exact absurd hres g1
    | fuelOut => simp

/-- C9 (amended): on ASCII text with an ASCII dictionary the byte positions
computed on the lowercased copy are valid boundaries of the original, so
`apply_replacements` never panics (no out-of-bounds or split-character
indexing); on non-ASCII input whose lowercase form has a different byte
length it can panic, as the counterexample shows. -/
theorem apply_replacements_ascii_no_panic (fuel : Nat) (text : List Char)
    (d : List (List Char × List Char)) (htext : asciiStr text)
    (hd : ∀ p ∈ d, asciiStr p.1 ∧ asciiStr p.2) :
    apply_replacements fuel text d ≠ RRes.panicked :=
  apply_replacements_ascii_aux d fuel text htext hd

/-- C9 witness: a concrete ASCII run. -/
theorem apply_replacements_ascii_no_panic_witness :
    apply_replacements 9 (str "abc") [(str "b", str "z")] ≠ RRes.panicked :=
  apply_replacements_ascii_no_panic 9 (str "abc") [(str "b", str "z")]
    (by decide) (by decide)

/-! ## C10: the result depends on the dictionary traversal order -/

/-- C10 counterexample.  The dictionary `{"a" ↦ "b", "b" ↦ "c"}` applied to
`"a"`: one traversal order yields `"c"` (the first entry's output feeds the
second entry), the other yields `"b"`.  The two dictionaries hold the same
entries (they are permutations of each other), so the output of
`apply_replacements` is not a function of the text and dictionary contents
alone. -/
theorem apply_replacements_order_dependent :
    apply_replacements 9 (str "a") [(str "a", str "b"), (str "b", str "c")] =
      RRes.ok (str "c") ∧
    apply_replacements 9 (str "a") [(str "b", str "c"), (str "a", str "b")] =
      RRes.ok (str "b") ∧
    List.Perm [(str "a", str "b"), (str "b", str "c")]
      [(str "b", str "c"), (str "a", str "b")] ∧
    str "c" ≠ str "b" := by
  refine ⟨by decide, by decide, ?_, by decide⟩
  exact List.Perm.swap _ _ _

/-- C10 (amended): the output is a deterministic function of the text and
the entry sequence, but not of the entry set; traversal order is irrelevant
only in the degenerate case of dictionaries with at most one entry, where
any two traversal orders coincide. -/
theorem apply_replacements_perm_singleton (fuel : Nat) (text : List Char)
    (d₁ d₂ : List (List Char × List Char)) (hperm : List.Perm d₁ d₂)
    (hlen : d₁.length ≤ 1) :
    apply_replacements fuel text d₁ = apply_replacements fuel text d₂ := by
  have hd : d₁ = d₂ := by
    cases d₁ with
    | nil => exact ((List.nil_perm).mp hperm).symm
    | cons a l =>
      cases l with
      | nil => exact (List.singleton_perm).mp hperm
      | cons b m => simp at hlen
  rw [hd]

/-- C10 witness: a singleton dictionary under the (only) traversal order. -/
theorem apply_replacements_perm_singleton_witness :
    apply_replacements 3 (str "x") [(str "a", str "b")] =
      apply_replacements 3 (str "x") [(str "a", str "b")] :=
  apply_replacements_perm_singleton 3 (str "x") [(str "a", str "b")]
    [(str "a", str "b")] (List.Perm.refl _) (by decide)

end Wayvoice
